import Mathlib

/-!
# XIA address helpers (`packet-xip-xia.h`)

A shallow embedding of the inline helpers of `packet-xip-xia.h` and the
properties of them that the specification states.

Conventions of the embedding:

* a `__u8` is a `Byte` (`Fin 256`); all arithmetic is done on its value in `Nat`;
* a C `int` result is an `Int`; a boolean C expression (`==`, `<`, `&&`, `||`)
  yields `1` or `0`;
* a 32-bit pattern is a `Nat` below `2 ^ 32`; `toInt32` reads it as a two's
  complement `int`, `int_not` is the pattern of `~x`;
* `int` has 32 bits and `size_t` 64 bits; a `size_t` holds the length of any
  string in memory, an `int` only lengths below `2 ^ 31`;
* a pointer to bytes is the memory from that pointer on, `Nat → Byte`;
* the host byte order is the parameter `le` (`true`: little endian).
-/

namespace XIA

/-- A `__u8`. -/
abbrev Byte := Fin 256

/-- A `__u32` (also the raw value of a `__be32`). -/
abbrev U32 := Fin 4294967296

/-- Result of a boolean C expression, as an `int`. -/
def c_bool (p : Prop) [Decidable p] : Int := if p then 1 else 0

/-- Conversion of a 32-bit pattern to `int` (two's complement). -/
def toInt32 (w : Nat) : Int :=
  if w % 4294967296 < 2147483648 then ((w % 4294967296 : Nat) : Int)
  else ((w % 4294967296 : Nat) : Int) - 4294967296

/-- Conversion of a pointer difference (`ptrdiff_t`) to `int`: its low 32 bits,
read as two's complement. -/
def int_of_ptrdiff (d : Int) : Int := toInt32 (d % 4294967296).toNat

/-- Conversion of an `int` to `size_t`, of 64 bits: the value modulo `2 ^ 64`. -/
def size_t_of_int (i : Int) : Nat := (i % 18446744073709551616).toNat

/-- The 32-bit pattern of `~x` for an `int` whose pattern is `x`. -/
def int_not (x : Nat) : Nat := 4294967295 - x % 4294967296

/-- Truncation of an `int` pattern to `__u8`. -/
def toU8 (w : Nat) : Byte := ⟨w % 256, Nat.mod_lt _ (by decide)⟩

/-- `#define XIA_OUTDEGREE_MAX 4` -/
abbrev XIA_OUTDEGREE_MAX : Nat := 4

/-- `#define XIA_XID_MAX 20` -/
abbrev XIA_XID_MAX : Nat := 20

/-- `#define XIA_CHOSEN_EDGE 0x80` -/
def XIA_CHOSEN_EDGE : Nat := 0x80

/-- `#define XIA_EMPTY_EDGE 0x7f` -/
def XIA_EMPTY_EDGE : Nat := 0x7f

/-- `#define XIA_ENTRY_NODE_INDEX 0x7e` -/
def XIA_ENTRY_NODE_INDEX : Nat := 0x7e

/-- `XIA_EMPTY_EDGES`: `XIA_EMPTY_EDGE << 24 | XIA_EMPTY_EDGE << 16 |
XIA_EMPTY_EDGE << 8 | XIA_EMPTY_EDGE`, as a 32-bit pattern. -/
def XIA_EMPTY_EDGES : Nat :=
  (XIA_EMPTY_EDGE <<< 24 ||| XIA_EMPTY_EDGE <<< 16 ||| XIA_EMPTY_EDGE <<< 8 |||
    XIA_EMPTY_EDGE) % 4294967296

/-- `XIA_CHOSEN_EDGES`: `XIA_CHOSEN_EDGE << 24 | XIA_CHOSEN_EDGE << 16 |
XIA_CHOSEN_EDGE << 8 | XIA_CHOSEN_EDGE`, as a 32-bit pattern
(`0x80 << 24` sets the sign bit of the `int`). -/
def XIA_CHOSEN_EDGES : Nat :=
  (XIA_CHOSEN_EDGE <<< 24 ||| XIA_CHOSEN_EDGE <<< 16 ||| XIA_CHOSEN_EDGE <<< 8 |||
    XIA_CHOSEN_EDGE) % 4294967296

/-- `static inline int is_edge_chosen(__u8 e) { return e & XIA_CHOSEN_EDGE; }` -/
def is_edge_chosen (e : Byte) : Int := toInt32 (e.val &&& XIA_CHOSEN_EDGE)

/-- `static inline int is_empty_edge(__u8 e)
{ return (e & XIA_EMPTY_EDGE) == XIA_EMPTY_EDGE; }` -/
def is_empty_edge (e : Byte) : Int := c_bool (e.val &&& XIA_EMPTY_EDGE = XIA_EMPTY_EDGE)

/-- `static inline int is_row_valid(__u8 row, __u8 num_dst)
{ return row < num_dst || row == XIA_ENTRY_NODE_INDEX; }` -/
def is_row_valid (row num_dst : Byte) : Int :=
  c_bool (row.val < num_dst.val ∨ row.val = XIA_ENTRY_NODE_INDEX)

/-- `static inline void xia_mark_edge(__u8 *edge) { *edge |= XIA_CHOSEN_EDGE; }`:
the new value of `*edge`. -/
def xia_mark_edge (edge : Byte) : Byte := toU8 (edge.val ||| XIA_CHOSEN_EDGE)

/-- `static inline void xia_unmark_edge(__u8 *edge) { *edge &= ~XIA_CHOSEN_EDGE; }`:
the new value of `*edge`. -/
def xia_unmark_edge (edge : Byte) : Byte := toU8 (edge.val &&& int_not XIA_CHOSEN_EDGE)

/-! ## Identifiers and rows in memory -/

/-- The `__u32` held by four consecutive bytes of memory, lowest address first. -/
def load32 (le : Bool) (b0 b1 b2 b3 : Byte) : Nat :=
  if le then b0.val + 256 * b1.val + 65536 * b2.val + 16777216 * b3.val
  else b3.val + 256 * b2.val + 65536 * b1.val + 16777216 * b0.val

/-- The `__u64` held by eight consecutive bytes of memory, lowest address first. -/
def load64 (le : Bool) (b0 b1 b2 b3 b4 b5 b6 b7 : Byte) : Nat :=
  if le then load32 true b0 b1 b2 b3 + 4294967296 * load32 true b4 b5 b6 b7
  else load32 false b4 b5 b6 b7 + 4294967296 * load32 false b0 b1 b2 b3

/-- `((const __u32 *)p)[k]` -/
def u32_at (le : Bool) (p : Nat → Byte) (k : Nat) : Nat :=
  load32 le (p (4 * k)) (p (4 * k + 1)) (p (4 * k + 2)) (p (4 * k + 3))

/-- `((const __u64 *)p)[k]` -/
def u64_at (le : Bool) (p : Nat → Byte) (k : Nat) : Nat :=
  load64 le (p (8 * k)) (p (8 * k + 1)) (p (8 * k + 2)) (p (8 * k + 3))
    (p (8 * k + 4)) (p (8 * k + 5)) (p (8 * k + 6)) (p (8 * k + 7))

/-- The byte at offset `i < 4` of a 32-bit value in memory. -/
def store32 (le : Bool) (v : Nat) (i : Nat) : Byte :=
  toU8 (if le then v / 256 ^ i else v / 256 ^ (3 - i))

/-- `struct xia_xid { xid_type_t xid_type; __u8 xid_id[XIA_XID_MAX]; }` -/
structure xia_xid where
  xid_type : U32
  xid_id : Fin XIA_XID_MAX → Byte

/-- `sizeof(struct xia_xid)`: the 4-byte type and the id bytes, no padding. -/
def sizeof_xia_xid : Nat := 4 + XIA_XID_MAX

/-- The memory at a `const struct xia_xid *`: the bytes of the type, the id
bytes, and after them whatever memory `tail` follows the structure. -/
def xia_xid.mem (le : Bool) (x : xia_xid) (tail : Nat → Byte) : Nat → Byte :=
  fun i =>
    if i < 4 then store32 le x.xid_type.val i
    else if h : i - 4 < XIA_XID_MAX then x.xid_id ⟨i - 4, h⟩
    else tail (i - sizeof_xia_xid)

/-- `are_xids_equal(const __u8 *xid1, const __u8 *xid2)`: five `__u32` compares. -/
def are_xids_equal (le : Bool) (xid1 xid2 : Nat → Byte) : Int :=
  c_bool (u32_at le xid1 0 = u32_at le xid2 0 ∧
    u32_at le xid1 1 = u32_at le xid2 1 ∧
    u32_at le xid1 2 = u32_at le xid2 2 ∧
    u32_at le xid1 3 = u32_at le xid2 3 ∧
    u32_at le xid1 4 = u32_at le xid2 4)

/-- `are_sxids_equal(const struct xia_xid *xid1, const struct xia_xid *xid2)`:
three `__u64` compares on the memory at the two pointers. -/
def are_sxids_equal (le : Bool) (xid1 xid2 : Nat → Byte) : Int :=
  c_bool (u64_at le xid1 0 = u64_at le xid2 0 ∧
    u64_at le xid1 1 = u64_at le xid2 1 ∧
    u64_at le xid1 2 = u64_at le xid2 2)

/-- `struct xia_row { struct xia_xid s_xid; union { __u8 a[XIA_OUTDEGREE_MAX];
__be32 i; } s_edge; }`; `s_edge` holds the member `a`. -/
structure xia_row where
  s_xid : xia_xid
  s_edge : Fin XIA_OUTDEGREE_MAX → Byte

/-- The union member `s_edge.i`: the four edge bytes read as one 32-bit word. -/
def xia_row.s_edge_i (le : Bool) (row : xia_row) : Nat :=
  load32 le (row.s_edge 0) (row.s_edge 1) (row.s_edge 2) (row.s_edge 3)

/-- `#define be32_to_raw_cpu(n) ((__force __u32)(n))` -/
def be32_to_raw_cpu (n : Nat) : Nat := n % 4294967296

/-- `static inline int is_any_edge_chosen(const struct xia_row *row)
{ return be32_to_raw_cpu(row->s_edge.i) & XIA_CHOSEN_EDGES; }` -/
def is_any_edge_chosen (le : Bool) (row : xia_row) : Int :=
  toInt32 (be32_to_raw_cpu (row.s_edge_i le) &&& XIA_CHOSEN_EDGES)

/-- `static inline int is_it_a_sink(struct xia_row *row, __u8 node, __u8 num_dst)
{ return node == (num_dst - 1) ||
  (be32_to_raw_cpu(row->s_edge.i) & XIA_EMPTY_EDGES) == XIA_EMPTY_EDGES; }`;
`num_dst - 1` is computed in `int`. -/
def is_it_a_sink (le : Bool) (row : xia_row) (node num_dst : Byte) : Int :=
  c_bool ((node.val : Int) = (num_dst.val : Int) - 1 ∨
    be32_to_raw_cpu (row.s_edge_i le) &&& XIA_EMPTY_EDGES = XIA_EMPTY_EDGES)

/-! ## Principal types and their names -/

/-- `#define XIDTYPE_NAT 0` -/
def XIDTYPE_NAT : Nat := 0

/-- `#define XIDTYPE_AD 0x10` -/
def XIDTYPE_AD : Nat := 0x10

/-- `#define XIDTYPE_HID 0x11` -/
def XIDTYPE_HID : Nat := 0x11

/-- `#define XIDTYPE_CID 0x12` -/
def XIDTYPE_CID : Nat := 0x12

/-- `#define XIDTYPE_SID 0x13` -/
def XIDTYPE_SID : Nat := 0x13

/-- `#define XIDTYPE_UNI4ID 0x14` -/
def XIDTYPE_UNI4ID : Nat := 0x14

/-- `#define XIDTYPE_I4ID 0x15` -/
def XIDTYPE_I4ID : Nat := 0x15

/-- `#define XIDTYPE_U4ID 0x16` -/
def XIDTYPE_U4ID : Nat := 0x16

/-- `#define XIDTYPE_XDP 0x17` -/
def XIDTYPE_XDP : Nat := 0x17

/-- `#define XIDTYPE_SRVCID 0x18` -/
def XIDTYPE_SRVCID : Nat := 0x18

/-- `#define XIDTYPE_FLOWID 0x19` -/
def XIDTYPE_FLOWID : Nat := 0x19

/-- `#define XIDTYPE_ZF 0x20` -/
def XIDTYPE_ZF : Nat := 0x20

/-- The terminating NUL of a C string. -/
def NUL : Char := Char.ofNat 0

/-- A `value_string` entry `{ value, strptr }`; `strptr` is `none` for `NULL`. -/
structure value_string where
  value : Nat
  strptr : Option (List Char)

/-- `static const value_string xidtype_vals[]`, the closing `{ 0, NULL }` included. -/
def xidtype_vals : List value_string :=
  [⟨XIDTYPE_AD, some ['a', 'd']⟩,
   ⟨XIDTYPE_HID, some ['h', 'i', 'd']⟩,
   ⟨XIDTYPE_CID, some ['c', 'i', 'd']⟩,
   ⟨XIDTYPE_SID, some ['s', 'i', 'd']⟩,
   ⟨XIDTYPE_UNI4ID, some ['u', 'n', 'i', '4', 'i', 'd']⟩,
   ⟨XIDTYPE_I4ID, some ['i', '4', 'i', 'd']⟩,
   ⟨XIDTYPE_U4ID, some ['u', '4', 'i', 'd']⟩,
   ⟨XIDTYPE_XDP, some ['x', 'd', 'p']⟩,
   ⟨XIDTYPE_SRVCID, some ['s', 'e', 'r', 'v', 'a', 'l']⟩,
   ⟨XIDTYPE_FLOWID, some ['f', 'l', 'o', 'w', 'i', 'd']⟩,
   ⟨XIDTYPE_ZF, some ['z', 'f']⟩,
   ⟨0, none⟩]

/-- Modelled from the spec: the table search behind `val_to_str`
(`epan/value_string.h` is not among the sources): the first entry of the table
whose value is `val`, the table ending at the entry whose string is `NULL`. -/
def match_strval (val : Nat) : List value_string → Option (List Char)
  | [] => none
  | ⟨_, none⟩ :: _ => none
  | ⟨v, some s⟩ :: vs => if v = val then some s else match_strval val vs

/-- Modelled from the spec: `val_to_str(val, vs, fmt)` of `epan/value_string.h`,
which is not among the sources: "looks up a short lowercase label for a known
principal type; unknown types render using a caller-supplied fallback format".
The rendering of the fallback format is the parameter `fmt`. -/
def val_to_str (val : Nat) (vs : List value_string) (fmt : Nat → List Char) : List Char :=
  match match_strval val vs with
  | some s => s
  | none => fmt val

/-! ## C strings and the destination buffer

A `gchar *` that is read is the list of characters in memory from the pointer
on; the C string ends at the first `NUL`, and the end of the list stands for
the terminating `NUL`. -/

/-- `strlen(s)` -/
def strlen : List Char → Nat
  | [] => 0
  | c :: cs => if c = NUL then 0 else strlen cs + 1

/-- `strchr(s, c)`, as the offset of the result from `s`, or `none` for `NULL`.
The terminator is part of the string: `strchr s NUL` is the offset of the
terminator. -/
def strchr : List Char → Char → Option Nat
  | [], c => if c = NUL then some 0 else none
  | x :: xs, c =>
    if x = c then some 0
    else if x = NUL then none
    else (strchr xs c).map (· + 1)

/-- The memory at the destination pointer `copy`, with the record of the
indices written so far (most recent first). -/
structure Buf where
  bytes : Nat → Char
  written : List Nat

/-- The assignment `copy[i] = c`. -/
def Buf.store (m : Buf) (i : Nat) (c : Char) : Buf :=
  ⟨fun j => if j = i then c else m.bytes j, i :: m.written⟩

/-- `strncpy(copy + dst, src, n)`: copies characters of `src` up to its
terminator, at most `n` of them, and fills what is left of the `n` bytes with
`NUL`. -/
def strncpy (m : Buf) (dst : Nat) (src : List Char) : Nat → Buf
  | 0 => m
  | n + 1 =>
    match src with
    | [] => strncpy (m.store dst NUL) (dst + 1) [] n
    | c :: cs =>
      if c = NUL then strncpy (m.store dst NUL) (dst + 1) [] n
      else strncpy (m.store dst c) (dst + 1) cs n

/-- `static void map_types(gchar *str, gchar *copy, guint32 type)`.
The result is the destination after the call; it is `none` when
`strchr(str, '-')` is `NULL`, since `NULL + 1` is then read by `strncpy`.
`fmt` renders the fallback format `"%s"` of `val_to_str`.
`len` is an `int` of 32 bits: the difference `end - start` is cut to its low
32 bits, and `strncpy` receives it converted to a `size_t` of 64 bits.
`str`, the name and `copy` are separate objects: `strncpy` is undefined when
source and destination overlap. -/
def map_types (fmt : Nat → List Char) (str : List Char) (copy : Buf) (type : Nat) :
    Option Buf :=
  let name := val_to_str type xidtype_vals fmt
  match strchr str '-', strchr str NUL with
  | some dash, some end_ =>
    let start := dash + 1
    let len : Int := int_of_ptrdiff ((end_ : Int) - (start : Int))
    let copy1 := if str.headD NUL = '!' then copy.store 0 '!' else copy
    let off := if str.headD NUL = '!' then 1 else 0
    let copy2 := strncpy copy1 off name (strlen name)
    let copy3 := strncpy copy2 (off + strlen name) ['-'] (strlen ['-'])
    some (strncpy copy3 (off + strlen name + strlen ['-']) (str.drop start)
      (size_t_of_int len))
  | _, _ => none

/-- The first `n` characters of the destination. -/
def Buf.take (m : Buf) (n : Nat) : List Char := (List.range n).map m.bytes

/-- The C string stored at a pointer: the characters before the first `NUL`. -/
def cstr : List Char → List Char
  | [] => []
  | c :: cs => if c = NUL then [] else c :: cstr cs

/-- The string the specification prescribes for `map_types`: `[!]n-<rest>`,
with the `!` present when `bang` holds. -/
def rewritten (bang : Bool) (n rest : List Char) : List Char :=
  (if bang then ['!'] else []) ++ n ++ '-' :: rest

/-! ## Rows with marked edges, addresses and sizes -/

/-- `xia_mark_edge(&row->s_edge.a[k])`: the row after the call. -/
def xia_row.mark_edge (row : xia_row) (k : Fin XIA_OUTDEGREE_MAX) : xia_row :=
  { row with s_edge := fun j => if j = k then xia_mark_edge (row.s_edge k) else row.s_edge j }

/-- `xia_unmark_edge(&row->s_edge.a[k])`: the row after the call. -/
def xia_row.unmark_edge (row : xia_row) (k : Fin XIA_OUTDEGREE_MAX) : xia_row :=
  { row with s_edge := fun j => if j = k then xia_unmark_edge (row.s_edge k) else row.s_edge j }

/-- `#define XIA_NODES_MAX 9` -/
abbrev XIA_NODES_MAX : Nat := 9

/-- `struct xia_addr { struct xia_row s_row[XIA_NODES_MAX]; }` -/
structure xia_addr where
  s_row : Fin XIA_NODES_MAX → xia_row

/-- `static inline void xia_null_addr(struct xia_addr *addr)
{ addr->s_row[0].s_xid.xid_type = XIDTYPE_NAT; }`: the address after the call. -/
def xia_null_addr (addr : xia_addr) : xia_addr :=
  { s_row := fun k =>
      if k = 0 then
        { addr.s_row 0 with
          s_xid := { (addr.s_row 0).s_xid with xid_type := ⟨XIDTYPE_NAT, by decide⟩ } }
      else addr.s_row k }

/-- `static inline int xia_is_nat(xid_type_t ty) { return ty == XIDTYPE_NAT; }` -/
def xia_is_nat (ty : U32) : Int := c_bool (ty.val = XIDTYPE_NAT)

/-- `sizeof(__u32)`, also the size of `xid_type_t` and of the union `s_edge`'s
member `i`. -/
def sizeof_u32 : Nat := 4

/-- `sizeof(__u64)` -/
def sizeof_u64 : Nat := 8

/-- `sizeof(__u16)` -/
def sizeof_u16 : Nat := 2

/-- The condition of `BUILD_BUG_ON(XIA_XID_MAX != sizeof(const __u32) * 5)`. -/
def build_bug_xid_max : Bool := XIA_XID_MAX != sizeof_u32 * 5

/-- The condition of
`BUILD_BUG_ON(sizeof(struct xia_xid) != sizeof(const __u64) * 3)`. -/
def build_bug_sizeof_xid : Bool := sizeof_xia_xid != sizeof_u64 * 3

/-- `sizeof(struct xia_row)`: the identifier and the union of `a[XIA_OUTDEGREE_MAX]`
with a `__be32`. -/
def sizeof_xia_row : Nat := sizeof_xia_xid + max XIA_OUTDEGREE_MAX sizeof_u32

/-- `sizeof(struct xia_addr)` -/
def sizeof_xia_addr : Nat := XIA_NODES_MAX * sizeof_xia_row

/-- `#define _K_SS_MAXSIZE 256` -/
def _K_SS_MAXSIZE : Nat := 256

/-- The length of `__pad1` in `struct sockaddr_xia`:
`_K_SS_MAXSIZE - sizeof(__kernel_sa_family_t) - sizeof(__u16) - sizeof(struct xia_addr)`,
for a family type of `sizeof_family` bytes (its declaration is in a system header). -/
def pad1_len (sizeof_family : Nat) : Int :=
  (_K_SS_MAXSIZE : Int) - (sizeof_family : Int) - (sizeof_u16 : Int) - (sizeof_xia_addr : Int)

/-- `sizeof(struct sockaddr_xia)`: `sxia_family`, `__pad0`, `sxia_addr`, `__pad1`. -/
def sizeof_sockaddr_xia (sizeof_family : Nat) : Int :=
  (sizeof_family : Int) + (sizeof_u16 : Int) + (sizeof_xia_addr : Int) + pad1_len sizeof_family

/-- The number of characters of `[!]n-<rest>`:
`off + strlen(n) + strlen("-") + strlen(rest)`, where `off` is 1 when `str`
begins with `!` and 0 otherwise. -/
def rewritten_len (str n rest : List Char) : Nat :=
  (if str.head? = some '!' then 1 else 0) + strlen n + 1 + strlen rest

/-! ## Results of boolean expressions and of the `int` conversion -/

theorem c_bool_ne_zero (p : Prop) [Decidable p] : c_bool p ≠ 0 ↔ p := by
  unfold c_bool
  by_cases h : p <;> simp [h]

theorem c_bool_eq_zero (p : Prop) [Decidable p] : c_bool p = 0 ↔ ¬ p := by
  unfold c_bool
  by_cases h : p <;> simp [h]

theorem toInt32_ne_zero (w : Nat) (h : w < 4294967296) : toInt32 w ≠ 0 ↔ w ≠ 0 := by
  unfold toInt32
  rw [Nat.mod_eq_of_lt h]
  split <;> omega

/-! ## Single edge bytes -/

set_option maxRecDepth 100000 in
/-- C8: for every byte `e`, `is_edge_chosen e` is non-zero if and only if
`(e & 0x80) != 0`, that is, if and only if bit 7 of `e` is set. -/
theorem is_edge_chosen_iff (e : Byte) :
    (is_edge_chosen e ≠ 0 ↔ e.val &&& 0x80 ≠ 0) ∧
    (is_edge_chosen e ≠ 0 ↔ e.val.testBit 7 = true) := by
  revert e
  decide

set_option maxRecDepth 100000 in
/-- C9: for every byte `e`, `is_empty_edge e` is true if and only if
`(e & 0x7f) == 0x7f`; exactly the bytes `0x7f` and `0xff` are empty; and
`0x7f`, `0xff` are classified empty while `0x00`, `0x7e` are not. -/
theorem is_empty_edge_iff :
    (∀ e : Byte, is_empty_edge e ≠ 0 ↔ e.val &&& 0x7f = 0x7f) ∧
    (∀ e : Byte, is_empty_edge e ≠ 0 ↔ e = 0x7f ∨ e = 0xff) ∧
    is_empty_edge 0x7f = 1 ∧ is_empty_edge 0xff = 1 ∧
    is_empty_edge 0x00 = 0 ∧ is_empty_edge 0x7e = 0 := by
  decide

/-- C5: `is_row_valid row num_dst` is non-zero if and only if `row < num_dst`
or `row == 0x7e`; so `is_row_valid 5 6` holds, `is_row_valid 6 6` does not,
and `is_row_valid 0x7e n` holds for every `n`, `0` included. -/
theorem is_row_valid_iff :
    (∀ row num_dst : Byte,
      is_row_valid row num_dst ≠ 0 ↔ row.val < num_dst.val ∨ row.val = 0x7e) ∧
    is_row_valid 5 6 ≠ 0 ∧ is_row_valid 6 6 = 0 ∧
    (∀ n : Byte, is_row_valid 0x7e n ≠ 0) ∧ is_row_valid 0x7e 0 ≠ 0 := by
  refine ⟨fun row num_dst => ?_, by decide, by decide, fun n => ?_, by decide⟩
  · unfold is_row_valid XIA_ENTRY_NODE_INDEX
    exact c_bool_ne_zero _
  · unfold is_row_valid XIA_ENTRY_NODE_INDEX
    exact (c_bool_ne_zero _).2 (Or.inr rfl)

/-- C6, as stated, fails: marking and then unmarking the byte `0x80` gives
`0x00`, not `0x80`. -/
theorem mark_unmark_not_round_trip :
    xia_unmark_edge (xia_mark_edge 0x80) = 0x00 ∧
    xia_unmark_edge (xia_mark_edge 0x80) ≠ 0x80 := by
  decide

set_option maxRecDepth 100000 in
/-- C6, amended: for every byte `e`, `xia_mark_edge` followed by
`xia_unmark_edge` gives `e & 0x7f`; it gives back `e` itself exactly when the
chosen bit `0x80` of `e` is clear, that is, for `e` in `0..127`. -/
theorem mark_unmark_clears_chosen (e : Byte) :
    (xia_unmark_edge (xia_mark_edge e)).val = e.val &&& 0x7f ∧
    (xia_unmark_edge (xia_mark_edge e) = e ↔ e.val &&& 0x80 = 0) ∧
    (xia_unmark_edge (xia_mark_edge e) = e ↔ e.val < 128) := by
  revert e
  decide

set_option maxRecDepth 100000 in
/-- C7: `xia_mark_edge` gives `e` with bit `0x80` set, `xia_unmark_edge` gives
`e` with bit `0x80` cleared, both leave the low 7 bits `e & 0x7f` as they were;
`is_edge_chosen` is non-zero after marking and zero after unmarking; and each
of the two operations is idempotent. -/
theorem mark_unmark_bits (e : Byte) :
    (xia_mark_edge e).val = e.val ||| 0x80 ∧
    (xia_mark_edge e).val &&& 0x80 = 0x80 ∧
    (xia_mark_edge e).val &&& 0x7f = e.val &&& 0x7f ∧
    (xia_unmark_edge e).val &&& 0x80 = 0 ∧
    (xia_unmark_edge e).val &&& 0x7f = e.val &&& 0x7f ∧
    is_edge_chosen (xia_mark_edge e) ≠ 0 ∧
    is_edge_chosen (xia_unmark_edge e) = 0 ∧
    xia_mark_edge (xia_mark_edge e) = xia_mark_edge e ∧
    xia_unmark_edge (xia_unmark_edge e) = xia_unmark_edge e := by
  revert e
  decide

/-! ## Words assembled from bytes -/

theorem load32_lt (le : Bool) (b0 b1 b2 b3 : Byte) : load32 le b0 b1 b2 b3 < 4294967296 := by
  have h0 := b0.isLt
  have h1 := b1.isLt
  have h2 := b2.isLt
  have h3 := b3.isLt
  cases le <;> simp only [load32, if_true, Bool.false_eq_true, if_false] <;> omega

theorem load32_inj (le : Bool) (a0 a1 a2 a3 b0 b1 b2 b3 : Byte) :
    load32 le a0 a1 a2 a3 = load32 le b0 b1 b2 b3 ↔
      a0 = b0 ∧ a1 = b1 ∧ a2 = b2 ∧ a3 = b3 := by
  have h0 := a0.isLt
  have h1 := a1.isLt
  have h2 := a2.isLt
  have h3 := a3.isLt
  have k0 := b0.isLt
  have k1 := b1.isLt
  have k2 := b2.isLt
  have k3 := b3.isLt
  cases le <;>
    simp only [load32, if_true, Bool.false_eq_true, if_false, Fin.ext_iff] <;> omega

theorem load64_inj (le : Bool) (a0 a1 a2 a3 a4 a5 a6 a7 b0 b1 b2 b3 b4 b5 b6 b7 : Byte) :
    load64 le a0 a1 a2 a3 a4 a5 a6 a7 = load64 le b0 b1 b2 b3 b4 b5 b6 b7 ↔
      (a0 = b0 ∧ a1 = b1 ∧ a2 = b2 ∧ a3 = b3) ∧ (a4 = b4 ∧ a5 = b5 ∧ a6 = b6 ∧ a7 = b7) := by
  rw [← load32_inj true a0 a1 a2 a3 b0 b1 b2 b3, ← load32_inj true a4 a5 a6 a7 b4 b5 b6 b7]
  have l1 := load32_lt true a0 a1 a2 a3
  have l2 := load32_lt true b0 b1 b2 b3
  have l3 := load32_lt false a4 a5 a6 a7
  have l4 := load32_lt false b4 b5 b6 b7
  cases le
  · simp only [load64, Bool.false_eq_true, if_false]
    rw [load32_inj true, load32_inj true, ← load32_inj false a0 a1 a2 a3 b0 b1 b2 b3,
      ← load32_inj false a4 a5 a6 a7 b4 b5 b6 b7]
    omega
  · simp only [load64, if_true]
    omega

/-- Bitwise and of two numbers split at bit `i`. -/
theorem land_split (i a b m n : Nat) (hb : b < 2 ^ i) (hn : n < 2 ^ i) :
    (2 ^ i * a + b) &&& (2 ^ i * m + n) = 2 ^ i * (a &&& m) + (b &&& n) := by
  apply Nat.eq_of_testBit_eq
  intro j
  have hbn : b &&& n < 2 ^ i := Nat.and_lt_two_pow b hn
  rw [Nat.testBit_and, Nat.testBit_mul_pow_two_add a hb, Nat.testBit_mul_pow_two_add m hn,
    Nat.testBit_mul_pow_two_add (a &&& m) hbn]
  by_cases h : j < i <;> simp [h]

/-- A word of four bytes masked with a byte repeated four times is the word of
the four masked bytes. -/
theorem load32_land (le : Bool) (b0 b1 b2 b3 : Byte) (c : Nat) (hc : c < 256) :
    load32 le b0 b1 b2 b3 &&& (c + 256 * c + 65536 * c + 16777216 * c) =
      if le then (b0.val &&& c) + 256 * (b1.val &&& c) + 65536 * (b2.val &&& c) +
        16777216 * (b3.val &&& c)
      else (b3.val &&& c) + 256 * (b2.val &&& c) + 65536 * (b1.val &&& c) +
        16777216 * (b0.val &&& c) := by
  have key : ∀ x0 x1 x2 x3 : Nat, x0 < 256 → x1 < 256 → x2 < 256 →
      (x0 + 256 * x1 + 65536 * x2 + 16777216 * x3) &&&
        (c + 256 * c + 65536 * c + 16777216 * c) =
      (x0 &&& c) + 256 * (x1 &&& c) + 65536 * (x2 &&& c) + 16777216 * (x3 &&& c) := by
    intro x0 x1 x2 x3 h0 h1 h2
    have e1 : x0 + 256 * x1 + 65536 * x2 + 16777216 * x3 =
        2 ^ 8 * (2 ^ 8 * (2 ^ 8 * x3 + x2) + x1) + x0 := by omega
    have e2 : c + 256 * c + 65536 * c + 16777216 * c =
        2 ^ 8 * (2 ^ 8 * (2 ^ 8 * c + c) + c) + c := by omega
    rw [e1, e2, land_split 8 _ _ _ _ (by omega) (by omega),
      land_split 8 _ _ _ _ (by omega) (by omega),
      land_split 8 _ _ _ _ (by omega) (by omega)]
    omega
  cases le
  · simp only [load32, Bool.false_eq_true, if_false]
    exact key _ _ _ _ b3.isLt b2.isLt b1.isLt
  · simp only [load32, if_true]
    exact key _ _ _ _ b0.isLt b1.isLt b2.isLt

theorem XIA_CHOSEN_EDGES_eq :
    XIA_CHOSEN_EDGES = 128 + 256 * 128 + 65536 * 128 + 16777216 * 128 := by decide

theorem XIA_EMPTY_EDGES_eq :
    XIA_EMPTY_EDGES = 127 + 256 * 127 + 65536 * 127 + 16777216 * 127 := by decide

theorem is_edge_chosen_ne_zero (e : Byte) : is_edge_chosen e ≠ 0 ↔ e.val &&& 128 ≠ 0 := by
  unfold is_edge_chosen XIA_CHOSEN_EDGE
  have h : e.val &&& 128 ≤ 128 := Nat.and_le_right
  exact toInt32_ne_zero _ (by omega)

theorem is_empty_edge_ne_zero (e : Byte) : is_empty_edge e ≠ 0 ↔ e.val &&& 127 = 127 := by
  unfold is_empty_edge XIA_EMPTY_EDGE
  exact c_bool_ne_zero _

theorem is_any_edge_chosen_ne_zero (le : Bool) (row : xia_row) :
    is_any_edge_chosen le row ≠ 0 ↔
      (row.s_edge 0).val &&& 128 ≠ 0 ∨ (row.s_edge 1).val &&& 128 ≠ 0 ∨
      (row.s_edge 2).val &&& 128 ≠ 0 ∨ (row.s_edge 3).val &&& 128 ≠ 0 := by
  unfold is_any_edge_chosen be32_to_raw_cpu xia_row.s_edge_i
  rw [Nat.mod_eq_of_lt (load32_lt _ _ _ _ _), XIA_CHOSEN_EDGES_eq,
    load32_land _ _ _ _ _ 128 (by decide)]
  have h0 : (row.s_edge 0).val &&& 128 ≤ 128 := Nat.and_le_right
  have h1 : (row.s_edge 1).val &&& 128 ≤ 128 := Nat.and_le_right
  have h2 : (row.s_edge 2).val &&& 128 ≤ 128 := Nat.and_le_right
  have h3 : (row.s_edge 3).val &&& 128 ≤ 128 := Nat.and_le_right
  cases le
  · simp only [Bool.false_eq_true, if_false]
    rw [toInt32_ne_zero _ (by omega)]
    omega
  · simp only [if_true]
    rw [toInt32_ne_zero _ (by omega)]
    omega

theorem all_edges_empty_iff (le : Bool) (row : xia_row) :
    be32_to_raw_cpu (row.s_edge_i le) &&& XIA_EMPTY_EDGES = XIA_EMPTY_EDGES ↔
      (row.s_edge 0).val &&& 127 = 127 ∧ (row.s_edge 1).val &&& 127 = 127 ∧
      (row.s_edge 2).val &&& 127 = 127 ∧ (row.s_edge 3).val &&& 127 = 127 := by
  unfold be32_to_raw_cpu xia_row.s_edge_i
  rw [Nat.mod_eq_of_lt (load32_lt _ _ _ _ _), XIA_EMPTY_EDGES_eq,
    load32_land _ _ _ _ _ 127 (by decide)]
  have h0 : (row.s_edge 0).val &&& 127 ≤ 127 := Nat.and_le_right
  have h1 : (row.s_edge 1).val &&& 127 ≤ 127 := Nat.and_le_right
  have h2 : (row.s_edge 2).val &&& 127 ≤ 127 := Nat.and_le_right
  have h3 : (row.s_edge 3).val &&& 127 ≤ 127 := Nat.and_le_right
  cases le
  · simp only [Bool.false_eq_true, if_false]
    omega
  · simp only [if_true]
    omega

theorem are_xids_equal_ne_zero (le : Bool) (a b : Nat → Byte) :
    are_xids_equal le a b ≠ 0 ↔ ∀ i, i < XIA_XID_MAX → a i = b i := by
  unfold are_xids_equal
  rw [c_bool_ne_zero]
  simp only [u32_at, load32_inj]
  norm_num
  constructor
  · intro h i hi
    interval_cases i <;> simp only [h]
  · intro h
    simp [h]

theorem are_sxids_equal_ne_zero (le : Bool) (p q : Nat → Byte) :
    are_sxids_equal le p q ≠ 0 ↔ ∀ i, i < sizeof_xia_xid → p i = q i := by
  unfold are_sxids_equal sizeof_xia_xid
  rw [c_bool_ne_zero]
  simp only [u64_at, load64_inj]
  norm_num
  constructor
  · intro h i hi
    interval_cases i <;> simp only [h]
  · intro h
    simp [h]

theorem store32_inj (le : Bool) (v w : Nat) (hv : v < 4294967296) (hw : w < 4294967296) :
    (∀ i, i < 4 → store32 le v i = store32 le w i) ↔ v = w := by
  constructor
  · intro h
    have h0 := h 0 (by omega)
    have h1 := h 1 (by omega)
    have h2 := h 2 (by omega)
    have h3 := h 3 (by omega)
    cases le <;>
      simp only [store32, toU8, Fin.ext_iff, if_true, Bool.false_eq_true, if_false] at h0 h1 h2 h3 <;>
      norm_num at h0 h1 h2 h3 <;> omega
  · rintro rfl i _
    rfl

theorem xia_xid_mem_eq_iff (le : Bool) (x y : xia_xid) (tx ty : Nat → Byte) :
    (∀ i, i < sizeof_xia_xid → x.mem le tx i = y.mem le ty i) ↔
      x.xid_type = y.xid_type ∧ ∀ i, x.xid_id i = y.xid_id i := by
  constructor
  · intro h
    constructor
    · apply Fin.ext
      apply (store32_inj le _ _ x.xid_type.isLt y.xid_type.isLt).1
      intro i hi
      have := h i (by unfold sizeof_xia_xid; omega)
      simpa only [xia_xid.mem, hi, if_true] using this
    · intro i
      have hi := i.isLt
      have := h (i.val + 4) (by unfold sizeof_xia_xid; omega)
      have h4 : ¬ (i.val + 4 < 4) := by omega
      have h20 : i.val + 4 - 4 < XIA_XID_MAX := by omega
      simp only [xia_xid.mem, h4, if_false, h20, dif_pos] at this
      simpa only [Nat.add_sub_cancel] using this
  · rintro ⟨ht, hid⟩ i hi
    unfold xia_xid.mem
    by_cases h4 : i < 4
    · simp only [h4, if_true, ht]
    · have h20 : i - 4 < XIA_XID_MAX := by unfold sizeof_xia_xid at hi; omega
      simp only [h4, if_false, h20, dif_pos, hid]

/-- C1: `are_xids_equal a b` is non-zero if and only if the memory at `a` and
at `b` agrees in all 20 bytes; it is `0` as soon as one of the 20 bytes
differs, in whichever of the five words that byte lies, in either byte order
of the host. -/
theorem are_xids_equal_iff (le : Bool) (a b : Nat → Byte) :
    (are_xids_equal le a b ≠ 0 ↔ ∀ i, i < 20 → a i = b i) ∧
    ((∃ i, i < 20 ∧ a i ≠ b i) → are_xids_equal le a b = 0) := by
  refine ⟨are_xids_equal_ne_zero le a b, ?_⟩
  rintro ⟨i, hi, hne⟩
  by_contra h0
  exact hne ((are_xids_equal_ne_zero le a b).1 h0 i hi)

/-- C2: for identifiers `x` and `y` in memory (whatever bytes follow them),
`are_sxids_equal` is non-zero if and only if the types are equal and all 20
id bytes are equal; the three 64-bit compares read exactly the
`3 * 8 = 24 = 4 + 20` bytes of the type and the id. -/
theorem are_sxids_equal_iff (le : Bool) (x y : xia_xid) (tx ty : Nat → Byte) :
    (are_sxids_equal le (x.mem le tx) (y.mem le ty) ≠ 0 ↔
      x.xid_type = y.xid_type ∧ ∀ i, x.xid_id i = y.xid_id i) ∧
    (∀ p q : Nat → Byte, are_sxids_equal le p q ≠ 0 ↔ ∀ i, i < 24 → p i = q i) ∧
    sizeof_xia_xid = 3 * 8 ∧ sizeof_xia_xid = 4 + 20 := by
  refine ⟨?_, fun p q => are_sxids_equal_ne_zero le p q, rfl, rfl⟩
  rw [are_sxids_equal_ne_zero, xia_xid_mem_eq_iff]

theorem forall_fin4 (P : Fin XIA_OUTDEGREE_MAX → Prop) :
    (∀ k, P k) ↔ P 0 ∧ P 1 ∧ P 2 ∧ P 3 := by
  constructor
  · intro h
    exact ⟨h 0, h 1, h 2, h 3⟩
  · rintro ⟨h0, h1, h2, h3⟩ k
    match k with
    | ⟨0, _⟩ => exact h0
    | ⟨1, _⟩ => exact h1
    | ⟨2, _⟩ => exact h2
    | ⟨3, _⟩ => exact h3

theorem exists_fin4 (P : Fin XIA_OUTDEGREE_MAX → Prop) :
    (∃ k, P k) ↔ P 0 ∨ P 1 ∨ P 2 ∨ P 3 := by
  constructor
  · rintro ⟨k, hk⟩
    match k, hk with
    | ⟨0, _⟩, hk => exact Or.inl hk
    | ⟨1, _⟩, hk => exact Or.inr (Or.inl hk)
    | ⟨2, _⟩, hk => exact Or.inr (Or.inr (Or.inl hk))
    | ⟨3, _⟩, hk => exact Or.inr (Or.inr (Or.inr hk))
  · rintro (h | h | h | h)
    exacts [⟨0, h⟩, ⟨1, h⟩, ⟨2, h⟩, ⟨3, h⟩]

/-- C3: `is_any_edge_chosen row` is non-zero if and only if `is_edge_chosen`
is non-zero for at least one of the four edge bytes of the row, in either byte
order of the host: the bulk test against `0x80808080` is the per-slot OR. -/
theorem is_any_edge_chosen_iff (le : Bool) (row : xia_row) :
    is_any_edge_chosen le row ≠ 0 ↔ ∃ k, is_edge_chosen (row.s_edge k) ≠ 0 := by
  rw [is_any_edge_chosen_ne_zero, exists_fin4]
  simp only [is_edge_chosen_ne_zero]

/-- C4: for `num_dst >= 1`, `is_it_a_sink row node num_dst` is non-zero if and
only if `node` equals `num_dst - 1` or all four edge bytes of the row satisfy
`is_empty_edge`; it is non-zero whenever `node == num_dst - 1`, whatever the
edges are, and whenever all four edge bytes are `0xff`. -/
theorem is_it_a_sink_iff (le : Bool) (row : xia_row) (node num_dst : Byte)
    (h : 1 ≤ num_dst.val) :
    (is_it_a_sink le row node num_dst ≠ 0 ↔
      node.val = num_dst.val - 1 ∨ ∀ k, is_empty_edge (row.s_edge k) ≠ 0) ∧
    (node.val = num_dst.val - 1 → is_it_a_sink le row node num_dst ≠ 0) ∧
    ((∀ k, row.s_edge k = 0xff) → is_it_a_sink le row node num_dst ≠ 0) := by
  have main : is_it_a_sink le row node num_dst ≠ 0 ↔
      node.val = num_dst.val - 1 ∨ ∀ k, is_empty_edge (row.s_edge k) ≠ 0 := by
    unfold is_it_a_sink
    rw [c_bool_ne_zero, all_edges_empty_iff, forall_fin4]
    simp only [is_empty_edge_ne_zero]
    constructor
    · rintro (h1 | h1)
      · left; omega
      · right; exact h1
    · rintro (h1 | h1)
      · left; omega
      · right; exact h1
  refine ⟨main, fun h1 => main.2 (Or.inl h1), fun h1 => main.2 (Or.inr fun k => ?_)⟩
  rw [h1 k]
  decide

/-- Witness for C4: row 2 of 3 destinations, with four ordinary edges. -/
theorem is_it_a_sink_iff_witness :
    (1 : Nat) ≤ (3 : Byte).val ∧
    is_it_a_sink true ⟨⟨0, fun _ => 0⟩, fun _ => 1⟩ 2 3 ≠ 0 :=
  ⟨by decide,
    (is_it_a_sink_iff true ⟨⟨0, fun _ => 0⟩, fun _ => 1⟩ 2 3 (by decide)).2.1 (by decide)⟩

/-! ## C strings -/

theorem strlen_eq_length_cstr (s : List Char) : strlen s = (cstr s).length := by
  induction s with
  | nil => rfl
  | cons c cs ih =>
    by_cases h : c = NUL
    · simp [strlen, cstr, h]
    · simp [strlen, cstr, h, ih]

theorem cstr_eq_self (s : List Char) (h : NUL ∉ s) : cstr s = s := by
  induction s with
  | nil => rfl
  | cons c cs ih =>
    have hc : c ≠ NUL := fun e => h (e ▸ List.mem_cons_self _ _)
    have hcs : NUL ∉ cs := fun e => h (List.mem_cons_of_mem _ e)
    simp [cstr, hc, ih hcs]

theorem strchr_NUL (s : List Char) : strchr s NUL = some (strlen s) := by
  induction s with
  | nil => simp [strchr, strlen]
  | cons c cs ih =>
    by_cases h : c = NUL
    · simp [strchr, strlen, h]
    · simp [strchr, strlen, h, ih]

theorem strchr_first (c : Char) (seg rest : List Char) (hc : c ∉ seg) (hnul : NUL ∉ seg) :
    strchr (seg ++ c :: rest) c = some seg.length := by
  induction seg with
  | nil => simp [strchr]
  | cons x xs ih =>
    have hx : x ≠ c := fun e => hc (e ▸ List.mem_cons_self _ _)
    have hx0 : x ≠ NUL := fun e => hnul (e ▸ List.mem_cons_self _ _)
    have hxs : c ∉ xs := fun e => hc (List.mem_cons_of_mem _ e)
    have hxs0 : NUL ∉ xs := fun e => hnul (List.mem_cons_of_mem _ e)
    simp [strchr, hx, hx0, ih hxs hxs0]

theorem strlen_append (c : Char) (seg rest : List Char) (hc : c ≠ NUL) (hnul : NUL ∉ seg) :
    strlen (seg ++ c :: rest) = seg.length + 1 + strlen rest := by
  induction seg with
  | nil => simp [strlen, hc]; omega
  | cons x xs ih =>
    have hx0 : x ≠ NUL := fun e => hnul (e ▸ List.mem_cons_self _ _)
    have hxs0 : NUL ∉ xs := fun e => hnul (List.mem_cons_of_mem _ e)
    simp [strlen, hx0, ih hxs0]
    omega

/-! ## The destination buffer -/

theorem take_zero (m : Buf) : m.take 0 = [] := rfl

theorem take_succ (m : Buf) (k : Nat) : m.take (k + 1) = m.take k ++ [m.bytes k] := by
  simp [Buf.take, List.range_succ]

theorem take_store_of_le (m : Buf) (i k : Nat) (c : Char) (h : k ≤ i) :
    (m.store i c).take k = m.take k := by
  unfold Buf.take
  apply List.map_congr_left
  intro j hj
  have hji : j ≠ i := by
    have := List.mem_range.1 hj
    omega
  simp [Buf.store, hji]

theorem take_store_succ (m : Buf) (i : Nat) (c : Char) :
    (m.store i c).take (i + 1) = m.take i ++ [c] := by
  rw [take_succ, take_store_of_le m i i c (Nat.le_refl i)]
  simp [Buf.store]

/-- Copying a C string with its own length as the bound appends its characters
to what the destination holds before `dst`. -/
theorem take_strncpy (src : List Char) (m : Buf) (dst : Nat) :
    (strncpy m dst src (strlen src)).take (dst + strlen src) = m.take dst ++ cstr src := by
  induction src generalizing m dst with
  | nil => simp [strlen, strncpy, cstr]
  | cons c cs ih =>
    by_cases h : c = NUL
    · simp [strlen, strncpy, cstr, h]
    · have e : dst + (strlen cs + 1) = dst + 1 + strlen cs := by omega
      simp only [strlen, h, if_false, strncpy, cstr]
      rw [e, ih, take_store_succ]
      simp

theorem headD_eq_bang (s : List Char) : s.headD NUL = '!' ↔ s.head? = some '!' := by
  cases s with
  | nil => simp [NUL]
  | cons c cs => simp

/-! ## The length `map_types` passes to the last copy -/

/-- A length below `2 ^ 31` survives the passage through `int len`. -/
theorem len_small (k : Nat) (h : k < 2147483648) :
    size_t_of_int (int_of_ptrdiff (k : Int)) = k := by
  unfold size_t_of_int int_of_ptrdiff toInt32
  have e : ((k : Int) % 4294967296).toNat = k := by omega
  rw [e]
  have e2 : k % 4294967296 = k := by omega
  rw [e2, if_pos h]
  omega

theorem strlen_replicate (c : Char) (hc : c ≠ NUL) (k : Nat) :
    strlen (List.replicate k c) = k := by
  induction k with
  | zero => rfl
  | succ k ih => simp [List.replicate_succ, strlen, hc, ih]

theorem cstr_replicate (c : Char) (hc : c ≠ NUL) (k : Nat) :
    cstr (List.replicate k c) = List.replicate k c := by
  induction k with
  | zero => rfl
  | succ k ih => simp [List.replicate_succ, cstr, hc, ih]

/-- The destination `map_types` returns, as the three copies it makes; the
last one gets the length of the rest after its passage through `int len`. -/
theorem map_types_eq (fmt : Nat → List Char) (seg rest : List Char) (copy : Buf)
    (type : Nat) (hdash : '-' ∉ seg) (hnul : NUL ∉ seg) :
    map_types fmt (seg ++ '-' :: rest) copy type =
      some (strncpy (strncpy (strncpy
          (if (seg ++ '-' :: rest).headD NUL = '!' then copy.store 0 '!' else copy)
          (if (seg ++ '-' :: rest).headD NUL = '!' then 1 else 0)
          (val_to_str type xidtype_vals fmt) (strlen (val_to_str type xidtype_vals fmt)))
        ((if (seg ++ '-' :: rest).headD NUL = '!' then 1 else 0) +
          strlen (val_to_str type xidtype_vals fmt)) ['-'] (strlen ['-']))
        ((if (seg ++ '-' :: rest).headD NUL = '!' then 1 else 0) +
          strlen (val_to_str type xidtype_vals fmt) + strlen ['-']) rest
        (size_t_of_int (int_of_ptrdiff ((strlen rest : Nat) : Int)))) := by
  have hlen : ((strlen (seg ++ '-' :: rest) : Nat) : Int) - ((seg.length + 1 : Nat) : Int) =
      ((strlen rest : Nat) : Int) := by
    rw [strlen_append '-' seg rest (by decide) hnul]
    push_cast
    omega
  have hdrop : (seg ++ '-' :: rest).drop (seg.length + 1) = rest := by
    rw [show seg ++ '-' :: rest = (seg ++ ['-']) ++ rest by simp]
    exact List.drop_left' (by simp)
  simp only [map_types, strchr_first '-' seg rest hdash hnul, strchr_NUL, hlen, hdrop]

/-- For a rest shorter than `2 ^ 31` the last copy gets `strlen(rest)`. -/
theorem map_types_eq_small (fmt : Nat → List Char) (seg rest : List Char) (copy : Buf)
    (type : Nat) (hdash : '-' ∉ seg) (hnul : NUL ∉ seg) (hlen : strlen rest < 2147483648) :
    map_types fmt (seg ++ '-' :: rest) copy type =
      some (strncpy (strncpy (strncpy
          (if (seg ++ '-' :: rest).headD NUL = '!' then copy.store 0 '!' else copy)
          (if (seg ++ '-' :: rest).headD NUL = '!' then 1 else 0)
          (val_to_str type xidtype_vals fmt) (strlen (val_to_str type xidtype_vals fmt)))
        ((if (seg ++ '-' :: rest).headD NUL = '!' then 1 else 0) +
          strlen (val_to_str type xidtype_vals fmt)) ['-'] (strlen ['-']))
        ((if (seg ++ '-' :: rest).headD NUL = '!' then 1 else 0) +
          strlen (val_to_str type xidtype_vals fmt) + strlen ['-']) rest (strlen rest)) := by
  rw [map_types_eq fmt seg rest copy type hdash hnul, len_small _ hlen]

/-- C10, amended: for `str` of the form `[!]<seg>-<rest>` (here `seg` is
everything before the first `-`, an optional leading `!` included) whose rest
is shorter than `2 ^ 31` characters, and `n` the C string `val_to_str` returns
for `type`, `map_types` returns and the destination holds, from index 0 on, the
characters of `[!]n-<rest>`: the `!` is there exactly when `str` begins with
`!`, the segment before the first `-` is replaced by `n`, and the rest of the
C string is copied unchanged. -/
theorem map_types_rewrites (fmt : Nat → List Char) (seg rest : List Char) (copy : Buf)
    (type : Nat) (hdash : '-' ∉ seg) (hnul : NUL ∉ seg) (hlen : strlen rest < 2147483648) :
    ∃ m, map_types fmt (seg ++ '-' :: rest) copy type = some m ∧
      m.take (rewritten (decide ((seg ++ '-' :: rest).head? = some '!'))
          (cstr (val_to_str type xidtype_vals fmt)) (cstr rest)).length =
        rewritten (decide ((seg ++ '-' :: rest).head? = some '!'))
          (cstr (val_to_str type xidtype_vals fmt)) (cstr rest) := by
  have hone : strlen ['-'] = 1 := by decide
  refine ⟨_, map_types_eq_small fmt seg rest copy type hdash hnul hlen, ?_⟩
  generalize val_to_str type xidtype_vals fmt = name
  simp only [headD_eq_bang]
  have h2 : ∀ (m : Buf) (off : Nat) (pre : List Char), m.take off = pre → pre.length = off →
      (strncpy (strncpy (strncpy m off name (strlen name)) (off + strlen name) ['-']
          (strlen ['-'])) (off + strlen name + strlen ['-']) rest (strlen rest)).take
        (pre ++ cstr name ++ '-' :: cstr rest).length = pre ++ cstr name ++ '-' :: cstr rest := by
    intro m off pre hm hp
    have e : (pre ++ cstr name ++ '-' :: cstr rest).length =
        off + strlen name + strlen ['-'] + strlen rest := by
      simp [hp, hone, strlen_eq_length_cstr]
      omega
    rw [e, take_strncpy, take_strncpy, take_strncpy, hm]
    simp [cstr, NUL]
  by_cases hb : (seg ++ '-' :: rest).head? = some '!'
  · simp only [hb, if_true, rewritten, decide_True]
    exact h2 _ 1 ['!'] (take_store_succ copy 0 '!') rfl
  · simp only [hb, if_false, rewritten, decide_False]
    exact h2 _ 0 [] rfl rfl

/-- Witness for C10: `"!10-abcd1234"` with type `0x10` gives `"!ad-abcd1234"`,
and `"12-deadbeef"` with type `0x12` gives `"cid-deadbeef"`. -/
theorem map_types_rewrites_witness :
    ('-' ∉ ['!', '1', '0'] ∧ NUL ∉ ['!', '1', '0'] ∧ strlen "abcd1234".toList < 2147483648 ∧
      ∃ m, map_types (fun _ => []) "!10-abcd1234".toList ⟨fun _ => 'Z', []⟩ 0x10 = some m ∧
        m.take 12 = "!ad-abcd1234".toList) ∧
    ('-' ∉ ['1', '2'] ∧ NUL ∉ ['1', '2'] ∧ strlen "deadbeef".toList < 2147483648 ∧
      ∃ m, map_types (fun _ => []) "12-deadbeef".toList ⟨fun _ => 'Z', []⟩ 0x12 = some m ∧
        m.take 12 = "cid-deadbeef".toList) :=
  ⟨⟨by decide, by decide, by decide,
      map_types_rewrites (fun _ => []) ['!', '1', '0'] "abcd1234".toList ⟨fun _ => 'Z', []⟩ 0x10
        (by decide) (by decide) (by decide)⟩,
    ⟨by decide, by decide, by decide,
      map_types_rewrites (fun _ => []) ['1', '2'] "deadbeef".toList ⟨fun _ => 'Z', []⟩ 0x12
        (by decide) (by decide) (by decide)⟩⟩

/-! ## The table of principal types -/

theorem match_strval_unknown (val : Nat)
    (h : val ∉ [0x10, 0x11, 0x12, 0x13, 0x14, 0x15, 0x16, 0x17, 0x18, 0x19, 0x20]) :
    match_strval val xidtype_vals = none := by
  simp only [List.mem_cons, List.mem_singleton, List.not_mem_nil, or_false, not_or] at h
  obtain ⟨h0, h1, h2, h3, h4, h5, h6, h7, h8, h9, h10⟩ := h
  simp [match_strval, xidtype_vals, XIDTYPE_AD, XIDTYPE_HID, XIDTYPE_CID, XIDTYPE_SID,
    XIDTYPE_UNI4ID, XIDTYPE_I4ID, XIDTYPE_U4ID, XIDTYPE_XDP, XIDTYPE_SRVCID, XIDTYPE_FLOWID,
    XIDTYPE_ZF, Ne.symm h0, Ne.symm h1, Ne.symm h2, Ne.symm h3, Ne.symm h4, Ne.symm h5,
    Ne.symm h6, Ne.symm h7, Ne.symm h8, Ne.symm h9, Ne.symm h10]

/-- C12: the lookup over `xidtype_vals` gives `ad`, `hid`, `cid`, `sid`,
`uni4id`, `i4id`, `u4id`, `xdp`, `serval`, `flowid`, `zf` for the types
`0x10..0x19` and `0x20`; for every other value the table has no entry and the
result is the fallback `fmt` applied to the value, in particular for NAT `0`,
for the reserved range `0x01..0x0f` and for `0xFFFFFFFF`. -/
theorem xidtype_lookup (fmt : Nat → List Char) :
    (val_to_str 0x10 xidtype_vals fmt = "ad".toList ∧
      val_to_str 0x11 xidtype_vals fmt = "hid".toList ∧
      val_to_str 0x12 xidtype_vals fmt = "cid".toList ∧
      val_to_str 0x13 xidtype_vals fmt = "sid".toList ∧
      val_to_str 0x14 xidtype_vals fmt = "uni4id".toList ∧
      val_to_str 0x15 xidtype_vals fmt = "i4id".toList ∧
      val_to_str 0x16 xidtype_vals fmt = "u4id".toList ∧
      val_to_str 0x17 xidtype_vals fmt = "xdp".toList ∧
      val_to_str 0x18 xidtype_vals fmt = "serval".toList ∧
      val_to_str 0x19 xidtype_vals fmt = "flowid".toList ∧
      val_to_str 0x20 xidtype_vals fmt = "zf".toList) ∧
    (∀ val : Nat,
      val ∉ [0x10, 0x11, 0x12, 0x13, 0x14, 0x15, 0x16, 0x17, 0x18, 0x19, 0x20] →
        match_strval val xidtype_vals = none ∧ val_to_str val xidtype_vals fmt = fmt val) ∧
    val_to_str XIDTYPE_NAT xidtype_vals fmt = fmt 0 ∧
    (∀ val : Nat, 0x01 ≤ val → val ≤ 0x0f → val_to_str val xidtype_vals fmt = fmt val) ∧
    val_to_str 0xFFFFFFFF xidtype_vals fmt = fmt 0xFFFFFFFF := by
  have unk : ∀ val : Nat,
      val ∉ [0x10, 0x11, 0x12, 0x13, 0x14, 0x15, 0x16, 0x17, 0x18, 0x19, 0x20] →
        match_strval val xidtype_vals = none ∧ val_to_str val xidtype_vals fmt = fmt val := by
    intro val h
    have hm := match_strval_unknown val h
    exact ⟨hm, by simp only [val_to_str, hm]⟩
  refine ⟨⟨rfl, rfl, rfl, rfl, rfl, rfl, rfl, rfl, rfl, rfl, rfl⟩, unk, (unk 0 (by decide)).2,
    fun val h1 h2 => (unk val ?_).2,
    (unk 0xFFFFFFFF (by decide)).2⟩
  simp only [List.mem_cons, List.mem_singleton, List.not_mem_nil, or_false, not_or]
  omega

/-! ## Row indices -/

set_option maxRecDepth 100000 in
theorem chosen_bit_ge (r : Byte) : r.val &&& 0x80 ≠ 0 → 128 ≤ r.val := by
  revert r
  decide

/-- C13: for `num_dst <= 9`, a byte `r` that `is_row_valid` accepts is in
`0..8` or is `0x7e`; the empty sentinel `0x7f` and every byte with the chosen
flag `0x80` set are rejected. -/
theorem is_row_valid_range (num_dst : Byte) (h : num_dst.val ≤ XIA_NODES_MAX) :
    (∀ r : Byte, is_row_valid r num_dst ≠ 0 → r.val ≤ 8 ∨ r.val = 0x7e) ∧
    is_row_valid 0x7f num_dst = 0 ∧
    (∀ r : Byte, r.val &&& 0x80 ≠ 0 → is_row_valid r num_dst = 0) := by
  change num_dst.val ≤ 9 at h
  refine ⟨fun r hr => ?_, ?_, fun r hr => ?_⟩
  · unfold is_row_valid XIA_ENTRY_NODE_INDEX at hr
    rw [c_bool_ne_zero] at hr
    omega
  · unfold is_row_valid XIA_ENTRY_NODE_INDEX
    rw [c_bool_eq_zero]
    have : (0x7f : Byte).val = 127 := rfl
    omega
  · have hge := chosen_bit_ge r hr
    unfold is_row_valid XIA_ENTRY_NODE_INDEX
    rw [c_bool_eq_zero]
    omega

/-- Witness for C13: with the full 9 destinations, row index 8 is accepted and
is in range, `0x7f` and `0x88` are rejected. -/
theorem is_row_valid_range_witness :
    (9 : Byte).val ≤ XIA_NODES_MAX ∧ is_row_valid 8 9 ≠ 0 ∧
    is_row_valid 0x7f 9 = 0 ∧ is_row_valid 0x88 9 = 0 :=
  ⟨by decide, by decide, (is_row_valid_range 9 (by decide)).2.1,
    (is_row_valid_range 9 (by decide)).2.2 0x88 (by decide)⟩

/-! ## The null address -/

/-- C15: after `xia_null_addr` the type of row 0 is `XIDTYPE_NAT = 0` and
satisfies `xia_is_nat`; the id bytes and the edge bytes of row 0 and all of
rows 1..8 are as before. -/
theorem xia_null_addr_frame (addr : xia_addr) :
    xia_is_nat ((xia_null_addr addr).s_row 0).s_xid.xid_type ≠ 0 ∧
    ((xia_null_addr addr).s_row 0).s_xid.xid_type.val = XIDTYPE_NAT ∧
    XIDTYPE_NAT = 0 ∧
    ((xia_null_addr addr).s_row 0).s_xid.xid_id = (addr.s_row 0).s_xid.xid_id ∧
    ((xia_null_addr addr).s_row 0).s_edge = (addr.s_row 0).s_edge ∧
    (∀ k, k ≠ 0 → (xia_null_addr addr).s_row k = addr.s_row k) := by
  refine ⟨?_, ?_, rfl, ?_, ?_, fun k hk => ?_⟩
  · unfold xia_is_nat
    rw [c_bool_ne_zero]
    simp [xia_null_addr]
  · simp [xia_null_addr]
  · simp [xia_null_addr]
  · simp [xia_null_addr]
  · simp [xia_null_addr, hk]

/-! ## Sizes -/

/-- C20: `XIA_XID_MAX = 20 = 5 * 4` and an identifier takes `4 + 20 = 24 = 3 * 8`
bytes, so neither `BUILD_BUG_ON` condition holds; a row takes `24 + 4 = 28`
bytes, an address `9 * 28 = 252` bytes; with `_K_SS_MAXSIZE = 256` and a 2-byte
family the trailing pad has length `256 - 2 - 2 - 252 = 0`, which is not
negative, and the socket address takes exactly 256 bytes. -/
theorem layout_constants :
    XIA_XID_MAX = 20 ∧ XIA_XID_MAX = 5 * sizeof_u32 ∧ sizeof_u32 = 4 ∧
    sizeof_xia_xid = 4 + 20 ∧ sizeof_xia_xid = 24 ∧ sizeof_xia_xid = 3 * sizeof_u64 ∧
    sizeof_u64 = 8 ∧
    build_bug_xid_max = false ∧ build_bug_sizeof_xid = false ∧
    sizeof_xia_row = 24 + 4 ∧ sizeof_xia_row = 28 ∧
    sizeof_xia_addr = 9 * 28 ∧ sizeof_xia_addr = 252 ∧
    _K_SS_MAXSIZE = 256 ∧
    pad1_len 2 = 256 - 2 - 2 - 252 ∧ 0 ≤ pad1_len 2 ∧ pad1_len 2 = 0 ∧
    sizeof_sockaddr_xia 2 = 256 := by
  decide

/-! ## Bulk tests, byte order and the chosen flag -/

theorem c_bool_congr (p q : Prop) [Decidable p] [Decidable q] (h : p ↔ q) :
    c_bool p = c_bool q := by
  unfold c_bool
  by_cases hp : p
  · simp [hp, h.1 hp]
  · have hq : ¬ q := fun hq => hp (h.2 hq)
    simp [hp, hq]

theorem any_chosen_exists (le : Bool) (row : xia_row) :
    is_any_edge_chosen le row ≠ 0 ↔ ∃ k, (row.s_edge k).val &&& 128 ≠ 0 := by
  rw [is_any_edge_chosen_ne_zero, exists_fin4]

theorem all_empty_forall (le : Bool) (row : xia_row) :
    be32_to_raw_cpu (row.s_edge_i le) &&& XIA_EMPTY_EDGES = XIA_EMPTY_EDGES ↔
      ∀ k, (row.s_edge k).val &&& 127 = 127 := by
  rw [all_edges_empty_iff, forall_fin4]

/-- The value of `is_it_a_sink` depends on the edge bytes only through the low
7 bits of each of them, whatever their order in the word. -/
theorem is_it_a_sink_congr (le le2 : Bool) (row row2 : xia_row) (node num_dst : Byte)
    (h : (∀ k, (row.s_edge k).val &&& 127 = 127) ↔ ∀ k, (row2.s_edge k).val &&& 127 = 127) :
    is_it_a_sink le row node num_dst = is_it_a_sink le2 row2 node num_dst := by
  unfold is_it_a_sink
  apply c_bool_congr
  rw [all_empty_forall, all_empty_forall, h]

/-- C14, as stated, fails: the `int` that `is_any_edge_chosen` returns is the
masked word itself, so its value follows the byte order: with the edge bytes
`0x80, 0, 0, 0` it is `128` when the word is read little-endian and
`-2147483648` when it is read big-endian, which are not the same result. -/
theorem is_any_edge_chosen_raw_value :
    is_any_edge_chosen true ⟨⟨0, fun _ => 0⟩, fun k => if k = 0 then 0x80 else 0⟩ = 128 ∧
    is_any_edge_chosen false ⟨⟨0, fun _ => 0⟩, fun k => if k = 0 then 0x80 else 0⟩ =
      -2147483648 ∧
    is_any_edge_chosen true ⟨⟨0, fun _ => 0⟩, fun k => if k = 0 then 0x80 else 0⟩ ≠
      is_any_edge_chosen false ⟨⟨0, fun _ => 0⟩, fun k => if k = 0 then 0x80 else 0⟩ := by
  decide

/-- C14, amended: the outcome of the bulk tests does not depend on the byte
order: `is_any_edge_chosen` is non-zero for one order exactly when it is
non-zero for the other, and `is_it_a_sink` has the same value, whether the four
edge bytes are read as a little-endian or a big-endian word, and also when the
four bytes are permuted. -/
theorem bulk_tests_byte_order (row : xia_row) (node num_dst : Byte) :
    (is_any_edge_chosen true row ≠ 0 ↔ is_any_edge_chosen false row ≠ 0) ∧
    is_it_a_sink true row node num_dst = is_it_a_sink false row node num_dst ∧
    (∀ (σ : Equiv.Perm (Fin XIA_OUTDEGREE_MAX)) (le le2 : Bool),
      (is_any_edge_chosen le row ≠ 0 ↔
        is_any_edge_chosen le2 { row with s_edge := fun k => row.s_edge (σ k) } ≠ 0) ∧
      is_it_a_sink le row node num_dst =
        is_it_a_sink le2 { row with s_edge := fun k => row.s_edge (σ k) } node num_dst) := by
  refine ⟨?_, is_it_a_sink_congr _ _ _ _ _ _ Iff.rfl, fun σ le le2 => ⟨?_, ?_⟩⟩
  · rw [any_chosen_exists, any_chosen_exists]
  · rw [any_chosen_exists, any_chosen_exists]
    exact σ.surjective.exists
  · apply is_it_a_sink_congr
    exact σ.surjective.forall

set_option maxRecDepth 100000 in
theorem mark_unmark_low7 (e : Byte) :
    (xia_mark_edge e).val &&& 127 = e.val &&& 127 ∧
    (xia_unmark_edge e).val &&& 127 = e.val &&& 127 ∧
    (xia_mark_edge e).val &&& 128 ≠ 0 ∧
    (xia_unmark_edge e).val &&& 128 = 0 := by
  revert e
  decide

theorem mark_edge_low7 (row : xia_row) (k j : Fin XIA_OUTDEGREE_MAX) :
    ((row.mark_edge k).s_edge j).val &&& 127 = (row.s_edge j).val &&& 127 := by
  unfold xia_row.mark_edge
  by_cases h : j = k
  · simp only [h, if_true]
    exact (mark_unmark_low7 _).1
  · simp only [h, if_false]

theorem unmark_edge_low7 (row : xia_row) (k j : Fin XIA_OUTDEGREE_MAX) :
    ((row.unmark_edge k).s_edge j).val &&& 127 = (row.s_edge j).val &&& 127 := by
  unfold xia_row.unmark_edge
  by_cases h : j = k
  · simp only [h, if_true]
    exact (mark_unmark_low7 _).2.1
  · simp only [h, if_false]

theorem unmark_edge_chosen (row : xia_row) (k j : Fin XIA_OUTDEGREE_MAX) :
    ((row.unmark_edge k).s_edge j).val &&& 128 = 0 ↔
      j = k ∨ (row.s_edge j).val &&& 128 = 0 := by
  unfold xia_row.unmark_edge
  by_cases h : j = k
  · simp only [h, if_true, true_or, iff_true]
    exact (mark_unmark_low7 _).2.2.2
  · simp only [h, if_false, false_or]

set_option maxRecDepth 100000 in
/-- C16: the chosen flag does not bear on emptiness: `is_empty_edge` gives the
same value on `e`, on `e` marked and on `e` unmarked; and `is_it_a_sink` is
unchanged when any edge byte of the row is marked or unmarked. -/
theorem chosen_flag_orthogonal :
    (∀ e : Byte, is_empty_edge (xia_mark_edge e) = is_empty_edge e ∧
      is_empty_edge (xia_unmark_edge e) = is_empty_edge e) ∧
    (∀ (le : Bool) (row : xia_row) (k : Fin XIA_OUTDEGREE_MAX) (node num_dst : Byte),
      is_it_a_sink le (row.mark_edge k) node num_dst = is_it_a_sink le row node num_dst ∧
      is_it_a_sink le (row.unmark_edge k) node num_dst = is_it_a_sink le row node num_dst) := by
  refine ⟨by decide, fun le row k node num_dst => ⟨?_, ?_⟩⟩
  · apply is_it_a_sink_congr
    simp only [mark_edge_low7]
  · apply is_it_a_sink_congr
    simp only [unmark_edge_low7]

/-- C17: with `num_dst == 0` the index clause never holds (`num_dst - 1` is
`-1` in `int`, which no `node` in `0..255` equals), so `is_it_a_sink row node 0`
is non-zero if and only if all four edge bytes have their low 7 bits equal to
`0x7f`; for `node == 255` and a row of edges `0` it is `0`. -/
theorem is_it_a_sink_zero_dst (le : Bool) (row : xia_row) (node : Byte) :
    (is_it_a_sink le row node 0 ≠ 0 ↔ ∀ k, (row.s_edge k).val &&& 0x7f = 0x7f) ∧
    (is_it_a_sink le row 255 0 ≠ 0 ↔ ∀ k, (row.s_edge k).val &&& 0x7f = 0x7f) ∧
    ((node.val : Int) ≠ ((0 : Byte).val : Int) - 1) ∧
    is_it_a_sink le ⟨row.s_xid, fun _ => 0⟩ 255 0 = 0 := by
  have main : ∀ n : Byte,
      is_it_a_sink le row n 0 ≠ 0 ↔ ∀ k, (row.s_edge k).val &&& 0x7f = 0x7f := by
    intro n
    unfold is_it_a_sink
    rw [c_bool_ne_zero, all_empty_forall]
    have h0 : ((0 : Byte).val : Int) = 0 := rfl
    constructor
    · rintro (h | h)
      · omega
      · exact h
    · exact Or.inr
  refine ⟨main node, main 255, ?_, ?_⟩
  · have h0 : ((0 : Byte).val : Int) = 0 := rfl
    omega
  · unfold is_it_a_sink
    rw [c_bool_eq_zero, all_empty_forall]
    have h0 : ((0 : Byte).val : Int) = 0 := rfl
    have h255 : ((255 : Byte).val : Int) = 255 := rfl
    rintro (h | h)
    · omega
    · have h127 := h 0
      change ((0 : Byte).val &&& 127 = 127) at h127
      exact absurd h127 (by decide)

/-- C19: after `xia_mark_edge` on any one edge byte of a row
`is_any_edge_chosen` is non-zero, and after `xia_unmark_edge` on all four edge
bytes it is zero, in either byte order. -/
theorem mark_agrees_with_bulk_test (le : Bool) (row : xia_row) :
    (∀ k, is_any_edge_chosen le (row.mark_edge k) ≠ 0) ∧
    is_any_edge_chosen le
      ((((row.unmark_edge 0).unmark_edge 1).unmark_edge 2).unmark_edge 3) = 0 := by
  constructor
  · intro k
    rw [any_chosen_exists]
    refine ⟨k, ?_⟩
    simp only [xia_row.mark_edge, if_true]
    exact (mark_unmark_low7 _).2.2.1
  · by_contra hne
    obtain ⟨j, hj⟩ := (any_chosen_exists le _).1 hne
    apply hj
    simp only [unmark_edge_chosen]
    have hcases : j = 0 ∨ j = 1 ∨ j = 2 ∨ j = 3 := by
      match j with
      | ⟨0, _⟩ => exact Or.inl rfl
      | ⟨1, _⟩ => exact Or.inr (Or.inl rfl)
      | ⟨2, _⟩ => exact Or.inr (Or.inr (Or.inl rfl))
      | ⟨3, _⟩ => exact Or.inr (Or.inr (Or.inr rfl))
    tauto

/-! ## What `map_types` writes -/

theorem written_strncpy (n : Nat) (m : Buf) (dst : Nat) (src : List Char) :
    (strncpy m dst src n).written = (List.range' dst n).reverse ++ m.written := by
  induction n generalizing m dst src with
  | zero => simp [strncpy]
  | succ n ih =>
    have step : ∀ c : Char, (List.range' (dst + 1) n).reverse ++ (m.store dst c).written =
        (List.range' dst (n + 1)).reverse ++ m.written := by
      intro c
      simp [Buf.store, List.range'_succ]
    cases src with
    | nil => simp only [strncpy, ih, step]
    | cons c cs =>
      by_cases h : c = NUL
      · simp only [strncpy, h, if_true, ih, step]
      · simp only [strncpy, h, if_false, ih, step]

theorem bytes_store_of_ne (m : Buf) (i j : Nat) (c : Char) (h : j ≠ i) :
    (m.store i c).bytes j = m.bytes j := by
  simp [Buf.store, h]

theorem bytes_strncpy_frame (n : Nat) (m : Buf) (dst : Nat) (src : List Char) (j : Nat)
    (h : j < dst ∨ dst + n ≤ j) : (strncpy m dst src n).bytes j = m.bytes j := by
  induction n generalizing m dst src with
  | zero => simp [strncpy]
  | succ n ih =>
    have hj : j ≠ dst := by omega
    have hj2 : j < dst + 1 ∨ dst + 1 + n ≤ j := by omega
    cases src with
    | nil => simp only [strncpy, ih _ _ _ hj2, bytes_store_of_ne _ _ _ _ hj]
    | cons c cs =>
      by_cases hc : c = NUL
      · simp only [strncpy, hc, if_true, ih _ _ _ hj2, bytes_store_of_ne _ _ _ _ hj]
      · simp only [strncpy, hc, if_false, ih _ _ _ hj2, bytes_store_of_ne _ _ _ _ hj]

/-- The indices `map_types` writes, in the order it writes them, and the bytes
it leaves alone, for a rest shorter than `2 ^ 31`. -/
theorem map_types_effect (fmt : Nat → List Char) (seg rest : List Char) (copy : Buf)
    (type : Nat) (hdash : '-' ∉ seg) (hnul : NUL ∉ seg) (hlen : strlen rest < 2147483648) :
    ∃ m, map_types fmt (seg ++ '-' :: rest) copy type = some m ∧
      m.written = (List.range (rewritten_len (seg ++ '-' :: rest)
          (val_to_str type xidtype_vals fmt) rest)).reverse ++ copy.written ∧
      ∀ j, rewritten_len (seg ++ '-' :: rest) (val_to_str type xidtype_vals fmt) rest ≤ j →
        m.bytes j = copy.bytes j := by
  refine ⟨_, map_types_eq_small fmt seg rest copy type hdash hnul hlen, ?_, ?_⟩
  · generalize val_to_str type xidtype_vals fmt = name
    have hone : strlen ['-'] = 1 := by decide
    simp only [written_strncpy, headD_eq_bang, rewritten_len, hone]
    by_cases hb : (seg ++ '-' :: rest).head? = some '!'
    · simp only [hb, if_true, Buf.store]
      have e : List.range (1 + strlen name + 1 + strlen rest) =
          [0] ++ (List.range' 1 (strlen name) ++ (List.range' (1 + strlen name) 1 ++
            List.range' (1 + strlen name + 1) (strlen rest))) := by
        rw [List.range_eq_range', List.range'_append_1, List.range'_append_1,
          show [0] = List.range' 0 1 from rfl, show (1 : Nat) = 0 + 1 from rfl,
          List.range'_append_1]
        congr 1
        omega
      rw [e]
      simp
    · simp only [hb, if_false]
      have e : List.range (0 + strlen name + 1 + strlen rest) =
          List.range' 0 (strlen name) ++ (List.range' (0 + strlen name) 1 ++
            List.range' (0 + strlen name + 1) (strlen rest)) := by
        rw [List.range_eq_range', List.range'_append_1, List.range'_append_1]
        congr 1
        omega
      rw [e]
      simp
  · intro j hj
    generalize val_to_str type xidtype_vals fmt = name at hj ⊢
    have hone : strlen ['-'] = 1 := by decide
    simp only [rewritten_len] at hj
    simp only [headD_eq_bang, hone]
    by_cases hb : (seg ++ '-' :: rest).head? = some '!'
    · simp only [hb, if_true] at hj ⊢
      rw [bytes_strncpy_frame _ _ _ _ _ (by omega), bytes_strncpy_frame _ _ _ _ _ (by omega),
        bytes_strncpy_frame _ _ _ _ _ (by omega), bytes_store_of_ne _ _ _ _ (by omega)]
    · simp only [hb, if_false] at hj ⊢
      rw [bytes_strncpy_frame _ _ _ _ _ (by omega), bytes_strncpy_frame _ _ _ _ _ (by omega),
        bytes_strncpy_frame _ _ _ _ _ (by omega)]

/-- When `int len` cuts the length of the rest to 0 the last copy does nothing. -/
theorem map_types_len_zero (fmt : Nat → List Char) (seg rest : List Char) (copy : Buf)
    (type : Nat) (hdash : '-' ∉ seg) (hnul : NUL ∉ seg)
    (h0 : size_t_of_int (int_of_ptrdiff ((strlen rest : Nat) : Int)) = 0) :
    map_types fmt (seg ++ '-' :: rest) copy type =
      some (strncpy (strncpy
          (if (seg ++ '-' :: rest).headD NUL = '!' then copy.store 0 '!' else copy)
          (if (seg ++ '-' :: rest).headD NUL = '!' then 1 else 0)
          (val_to_str type xidtype_vals fmt) (strlen (val_to_str type xidtype_vals fmt)))
        ((if (seg ++ '-' :: rest).headD NUL = '!' then 1 else 0) +
          strlen (val_to_str type xidtype_vals fmt)) ['-'] (strlen ['-'])) := by
  rw [map_types_eq fmt seg rest copy type hdash hnul, h0]
  rfl

theorem take_getElem? (m : Buf) (n i : Nat) (h : i < n) : (m.take n)[i]? = some (m.bytes i) := by
  simp [Buf.take, List.getElem?_range h]

theorem take_ne_of_byte (m : Buf) (L : List Char) (i : Nat) (c : Char) (hi : L[i]? = some c)
    (hm : m.bytes i ≠ c) : m.take L.length ≠ L := by
  intro h
  have hlt : i < L.length := by
    by_contra hge
    rw [List.getElem?_eq_none (by omega)] at hi
    cases hi
  have h1 := take_getElem? m L.length i hlt
  rw [h, hi] at h1
  exact hm (Option.some.inj h1).symm

/-- A rest of `k` characters `a` whose length `int len` cuts to 0: `cid-` is
written and nothing of the rest. -/
theorem long_rest_not_copied (k : Nat) (hk : size_t_of_int (int_of_ptrdiff (k : Int)) = 0)
    (hpos : 0 < k) :
    ∃ m, map_types (fun _ => []) (['1', '2'] ++ '-' :: List.replicate k 'a')
        ⟨fun _ => 'Z', []⟩ 0x12 = some m ∧
      m.written = [3, 2, 1, 0] ∧ m.bytes 4 = 'Z' ∧
      m.take (rewritten (decide ((['1', '2'] ++ '-' :: List.replicate k 'a').head? = some '!'))
          (cstr (val_to_str 0x12 xidtype_vals (fun _ => [])))
          (cstr (List.replicate k 'a'))).length ≠
        rewritten (decide ((['1', '2'] ++ '-' :: List.replicate k 'a').head? = some '!'))
          (cstr (val_to_str 0x12 xidtype_vals (fun _ => []))) (cstr (List.replicate k 'a')) := by
  have h0 : size_t_of_int (int_of_ptrdiff ((strlen (List.replicate k 'a') : Nat) : Int)) = 0 := by
    rw [strlen_replicate 'a' (by decide)]
    exact hk
  have hname : val_to_str 0x12 xidtype_vals (fun _ => []) = ['c', 'i', 'd'] := rfl
  have hm := map_types_len_zero (fun _ => []) ['1', '2'] (List.replicate k 'a')
    ⟨fun _ => 'Z', []⟩ 0x12 (by decide) (by decide) h0
  have hhead : (['1', '2'] ++ '-' :: List.replicate k 'a').headD NUL = '1' := rfl
  rw [hhead, hname] at hm
  refine ⟨_, hm, by decide, by decide, ?_⟩
  apply take_ne_of_byte _ _ 4 'a'
  · rw [hname, cstr_replicate 'a' (by decide)]
    have hh : (['1', '2'] ++ '-' :: List.replicate k 'a').head? = some '1' := rfl
    simp [rewritten, hh, cstr, NUL, List.getElem?_replicate, hpos]
  · decide

/-- C10, as stated, fails: for `"12-"` followed by `2 ^ 32` characters `a` and
type `0x12`, `int len` is 0; `map_types` writes `cid-` at indices `0..3` and
nothing of the rest, so index 4 still holds its old `Z` and the destination
does not hold `cid-` followed by the rest. -/
theorem map_types_rewrites_fails_long_rest :
    ∃ m, map_types (fun _ => []) (['1', '2'] ++ '-' :: List.replicate 4294967296 'a')
        ⟨fun _ => 'Z', []⟩ 0x12 = some m ∧
      m.written = [3, 2, 1, 0] ∧ m.bytes 4 = 'Z' ∧
      m.take (rewritten
          (decide ((['1', '2'] ++ '-' :: List.replicate 4294967296 'a').head? = some '!'))
          (cstr (val_to_str 0x12 xidtype_vals (fun _ => [])))
          (cstr (List.replicate 4294967296 'a'))).length ≠
        rewritten
          (decide ((['1', '2'] ++ '-' :: List.replicate 4294967296 'a').head? = some '!'))
          (cstr (val_to_str 0x12 xidtype_vals (fun _ => [])))
          (cstr (List.replicate 4294967296 'a')) :=
  long_rest_not_copied 4294967296 (by decide) (by decide)

/-- C11, amended: for `str` with a first `-` after `seg` and a rest after it
shorter than `2 ^ 31` characters, `map_types` returns, and every index of
`copy` it writes is below `strlen(n) + strlen(rest) + 2`, plus 1 when `str`
begins with `!`, where `n` is the name `val_to_str` returns: a destination of
that size is not overflowed. -/
theorem map_types_no_overflow (fmt : Nat → List Char) (seg rest : List Char) (copy : Buf)
    (type : Nat) (hdash : '-' ∉ seg) (hnul : NUL ∉ seg) (hlen : strlen rest < 2147483648) :
    ∃ m w, map_types fmt (seg ++ '-' :: rest) copy type = some m ∧
      m.written = w ++ copy.written ∧
      ∀ i ∈ w, i < strlen (val_to_str type xidtype_vals fmt) + strlen rest + 2 +
        (if (seg ++ '-' :: rest).head? = some '!' then 1 else 0) := by
  obtain ⟨m, hm, hw, _⟩ := map_types_effect fmt seg rest copy type hdash hnul hlen
  refine ⟨m, _, hm, hw, fun i hi => ?_⟩
  have hi2 := List.mem_range.1 (List.mem_reverse.1 hi)
  unfold rewritten_len at hi2
  omega

/-- Witness for C11: `"!10-abcd1234"` with type `0x10`: the name is `ad`, the
rest has 8 characters, and all writes are below `2 + 8 + 2 + 1 = 13`. -/
theorem map_types_no_overflow_witness :
    '-' ∉ ['!', '1', '0'] ∧ NUL ∉ ['!', '1', '0'] ∧ strlen "abcd1234".toList < 2147483648 ∧
    ∃ m w, map_types (fun _ => []) "!10-abcd1234".toList ⟨fun _ => 'Z', []⟩ 0x10 = some m ∧
      m.written = w ++ [] ∧ ∀ i ∈ w, i < 13 :=
  ⟨by decide, by decide, by decide,
    map_types_no_overflow (fun _ => []) ['!', '1', '0'] "abcd1234".toList ⟨fun _ => 'Z', []⟩
      0x10 (by decide) (by decide) (by decide)⟩

/-- A rest of `k` characters `a` whose length `int len` turns into a count `n`
for the last copy: the copy writes the `n` indices from 3 on. -/
theorem long_rest_overflows (k i : Nat)
    (hi : 3 ≤ i ∧ i < 3 + size_t_of_int (int_of_ptrdiff (k : Int))) (hk : k + 4 ≤ i) :
    ∃ m, map_types (fun _ => []) (['1', '0'] ++ '-' :: List.replicate k 'a')
        ⟨fun _ => 'Z', []⟩ 0x10 = some m ∧
      i ∈ m.written ∧
      ¬ (i < strlen (val_to_str 0x10 xidtype_vals (fun _ => [])) +
          strlen (List.replicate k 'a') + 2 +
          (if (['1', '0'] ++ '-' :: List.replicate k 'a').head? = some '!' then 1 else 0)) := by
  have hname : val_to_str 0x10 xidtype_vals (fun _ => []) = ['a', 'd'] := rfl
  have hm := map_types_eq (fun _ => []) ['1', '0'] (List.replicate k 'a')
    ⟨fun _ => 'Z', []⟩ 0x10 (by decide) (by decide)
  have hhead : (['1', '0'] ++ '-' :: List.replicate k 'a').headD NUL = '1' := rfl
  have hh : (['1', '0'] ++ '-' :: List.replicate k 'a').head? = some '1' := rfl
  rw [hhead, hname, strlen_replicate 'a' (by decide)] at hm
  refine ⟨_, hm, ?_, ?_⟩
  · rw [written_strncpy]
    apply List.mem_append_left
    rw [List.mem_reverse, List.mem_range'_1]
    have e : (if '1' = '!' then 1 else 0) + strlen ['a', 'd'] + strlen ['-'] = 3 := by decide
    rw [e]
    exact hi
  · rw [hname, strlen_replicate 'a' (by decide), hh]
    have e : strlen ['a', 'd'] = 2 := by decide
    have e2 : (if some '1' = some '!' then 1 else 0) = 0 := by decide
    rw [e, e2]
    omega

/-- C11, as stated, fails: for `"10-"` followed by `2 ^ 31` characters `a` and
type `0x10`, `int len` is `-2 ^ 31` and `strncpy` gets `2 ^ 64 - 2 ^ 31` as its
count; index `2147483700` is written, which is not below
`strlen(n) + strlen(rest) + 2 = 2147483652`. -/
theorem map_types_overflows_long_rest :
    ∃ m, map_types (fun _ => []) (['1', '0'] ++ '-' :: List.replicate 2147483648 'a')
        ⟨fun _ => 'Z', []⟩ 0x10 = some m ∧
      2147483700 ∈ m.written ∧
      ¬ (2147483700 < strlen (val_to_str 0x10 xidtype_vals (fun _ => [])) +
          strlen (List.replicate 2147483648 'a') + 2 +
          (if (['1', '0'] ++ '-' :: List.replicate 2147483648 'a').head? = some '!'
            then 1 else 0)) :=
  long_rest_overflows 2147483648 2147483700 (by decide) (by decide)

/-- C18, amended: for a rest shorter than `2 ^ 31` characters `map_types`
writes no terminating `NUL`: it writes exactly the indices
`0 .. off + strlen(n) + strlen(rest)`, each once and in increasing order, and
every byte of `copy` from index `off + strlen(n) + 1 + strlen(rest)` on is as
before; the byte at that index is `NUL` after the call if and only if it was
`NUL` before. -/
theorem map_types_no_terminator (fmt : Nat → List Char) (seg rest : List Char) (copy : Buf)
    (type : Nat) (hdash : '-' ∉ seg) (hnul : NUL ∉ seg) (hlen : strlen rest < 2147483648) :
    ∃ m, map_types fmt (seg ++ '-' :: rest) copy type = some m ∧
      m.written = (List.range (rewritten_len (seg ++ '-' :: rest)
          (val_to_str type xidtype_vals fmt) rest)).reverse ++ copy.written ∧
      (∀ j, rewritten_len (seg ++ '-' :: rest) (val_to_str type xidtype_vals fmt) rest ≤ j →
        m.bytes j = copy.bytes j) ∧
      (m.bytes (rewritten_len (seg ++ '-' :: rest) (val_to_str type xidtype_vals fmt) rest) =
          NUL ↔
        copy.bytes (rewritten_len (seg ++ '-' :: rest) (val_to_str type xidtype_vals fmt) rest) =
          NUL) := by
  obtain ⟨m, hm, hw, hb⟩ := map_types_effect fmt seg rest copy type hdash hnul hlen
  refine ⟨m, hm, hw, hb, ?_⟩
  rw [hb _ (Nat.le_refl _)]

/-- Witness for C18: `"12-deadbeef"` with type `0x12` into a destination full
of `Z`: indices `0..11` are written, and index 12 still holds `Z`. -/
theorem map_types_no_terminator_witness :
    '-' ∉ ['1', '2'] ∧ NUL ∉ ['1', '2'] ∧ strlen "deadbeef".toList < 2147483648 ∧
    ∃ m, map_types (fun _ => []) "12-deadbeef".toList ⟨fun _ => 'Z', []⟩ 0x12 = some m ∧
      m.written = [11, 10, 9, 8, 7, 6, 5, 4, 3, 2, 1, 0] ∧
      (∀ j, 12 ≤ j → m.bytes j = 'Z') ∧
      (m.bytes 12 = NUL ↔ 'Z' = NUL) :=
  ⟨by decide, by decide, by decide,
    map_types_no_terminator (fun _ => []) ['1', '2'] "deadbeef".toList ⟨fun _ => 'Z', []⟩
      0x12 (by decide) (by decide) (by decide)⟩

/-- A rest of `k` characters `b` whose length `int len` cuts to 0: only the
three indices of `ad-` are written. -/
theorem long_rest_short_log (k : Nat) (hk : size_t_of_int (int_of_ptrdiff (k : Int)) = 0)
    (hpos : 0 < k) :
    ∃ m, map_types (fun _ => []) (['1', '0'] ++ '-' :: List.replicate k 'b')
        ⟨fun _ => 'Z', []⟩ 0x10 = some m ∧
      m.written = [2, 1, 0] ∧
      m.written ≠ (List.range (rewritten_len (['1', '0'] ++ '-' :: List.replicate k 'b')
          (val_to_str 0x10 xidtype_vals (fun _ => [])) (List.replicate k 'b'))).reverse ++ [] := by
  have h0 : size_t_of_int (int_of_ptrdiff ((strlen (List.replicate k 'b') : Nat) : Int)) = 0 := by
    rw [strlen_replicate 'b' (by decide)]
    exact hk
  have hname : val_to_str 0x10 xidtype_vals (fun _ => []) = ['a', 'd'] := rfl
  have hm := map_types_len_zero (fun _ => []) ['1', '0'] (List.replicate k 'b')
    ⟨fun _ => 'Z', []⟩ 0x10 (by decide) (by decide) h0
  have hhead : (['1', '0'] ++ '-' :: List.replicate k 'b').headD NUL = '1' := rfl
  rw [hhead, hname] at hm
  have hw : (strncpy (strncpy (if '1' = '!' then Buf.store ⟨fun _ => 'Z', []⟩ 0 '!'
      else ⟨fun _ => 'Z', []⟩) (if '1' = '!' then 1 else 0) ['a', 'd'] (strlen ['a', 'd']))
      ((if '1' = '!' then 1 else 0) + strlen ['a', 'd']) ['-'] (strlen ['-'])).written =
      [2, 1, 0] := by decide
  refine ⟨_, hm, hw, ?_⟩
  rw [hw]
  intro h
  have hl := congrArg List.length h
  have hh : (['1', '0'] ++ '-' :: List.replicate k 'b').head? = some '1' := rfl
  have e : strlen ['a', 'd'] = 2 := by decide
  have e2 : (if some '1' = some '!' then 1 else 0) = 0 := by decide
  simp only [List.length_cons, List.length_nil, List.length_append, List.length_reverse,
    List.length_range, rewritten_len, hname, hh, strlen_replicate 'b' (by decide) k, e, e2]
    at hl
  omega

/-- C18, as stated, fails: for `"10-"` followed by `2 ^ 32` characters `b` and
type `0x10`, `int len` is 0 and `map_types` writes only the indices `0, 1, 2`
of `ad-`, not the indices `0 .. 2 + 2 ^ 32`. -/
theorem map_types_short_log_long_rest :
    ∃ m, map_types (fun _ => []) (['1', '0'] ++ '-' :: List.replicate 4294967296 'b')
        ⟨fun _ => 'Z', []⟩ 0x10 = some m ∧
      m.written = [2, 1, 0] ∧
      m.written ≠ (List.range (rewritten_len
          (['1', '0'] ++ '-' :: List.replicate 4294967296 'b')
          (val_to_str 0x10 xidtype_vals (fun _ => []))
          (List.replicate 4294967296 'b'))).reverse ++ [] :=
  long_rest_short_log 4294967296 (by decide) (by decide)

end XIA
